import Mathlib

/-!
Shallow embedding of the hurmuzi SNES channel-mixer core
(`src/lib/emulator/channelState.ts`, `src/lib/emulator/utils.ts`,
`src/lib/storage/channelStates.ts`, `useChannelMixer` hook), together with
theorems settling the spec claims about it.

Conventions of the embedding:
  * A JavaScript `boolean[]` becomes `List Bool`.
  * `arr[i]` (which may be `undefined`) becomes `l[i]?  : Option Bool`;
    the JS comparison `arr[i] === false` becomes `l[i]? = some false`
    (in JS `undefined === false` is `false`).
  * Copy-and-assign (`const u = [...a]; u[i] = v`) becomes `List.set`;
    all theorems restrict indices to be in range, where the two agree.
  * Strings are processed on their character lists; the JS `String`
    methods used by the source (`split` with a non-empty separator,
    `trim`, `replace` with a plain-string pattern, which replaces the
    first occurrence only) are embedded below as executable functions
    on `List Char`.
-/

namespace Hurmuzi

/-! ## channelState.ts -/

/-- Embeds `needsReload(uiStates, effectiveStates)` from `channelState.ts`:
`uiStates.some((uiState, i) => uiState === true && effectiveStates[i] === false)`.
The index `i` ranges over the indices of `uiStates`; accessing
`effectiveStates[i]` out of range yields `undefined`, which is not `=== false`. -/
def needsReload (uiStates effectiveStates : List Bool) : Bool :=
  (List.range uiStates.length).any (fun i =>
    uiStates.getD i false && decide (effectiveStates[i]? = some false))

/-- Embeds `areAllChannelsEnabled(states)`: `states.every((ch) => ch)`. -/
def areAllChannelsEnabled (states : List Bool) : Bool :=
  states.all (fun ch => ch)

/-- Embeds `updateEffectiveStateOnMute(currentEffective, channelIndex, isMuting)`:
returns `currentEffective` unchanged when not muting, otherwise a copy
with `channelIndex` set to `false`. -/
def updateEffectiveStateOnMute (currentEffective : List Bool)
    (channelIndex : Nat) (isMuting : Bool) : List Bool :=
  if !isMuting then currentEffective
  else currentEffective.set channelIndex false

/-- Embeds `updateEffectiveStateOnSolo(currentEffective, soloedIndex)`:
`new Array(8).fill(false)` with index `soloedIndex` set to
`currentEffective[soloedIndex]`. -/
def updateEffectiveStateOnSolo (currentEffective : List Bool)
    (soloedIndex : Nat) : List Bool :=
  (List.replicate 8 false).set soloedIndex (currentEffective.getD soloedIndex false)

/-! ## useChannelMixer state transitions

The hook keeps two pieces of state, `channels` (the desired/UI state) and
`effectiveAudioState`; the engine calls (`onSetVariable`) are external
side effects with no influence on this state, so the handlers embed as
pure transitions on the pair. -/

/-- The `useChannelMixer` hook state: `channels` (desired/UI) and
`effectiveAudioState`. -/
structure MixerState where
  channels : List Bool
  effective : List Bool
deriving DecidableEq

/-- Embeds `handleToggle(channelIndex)`: flips `channels[channelIndex]`; when the
new UI state is `false` (a mute) it applies `updateEffectiveStateOnMute`
with `isMuting = true`, otherwise leaves the effective state untouched. -/
def handleToggle (s : MixerState) (channelIndex : Nat) : MixerState :=
  let currentUIState := s.channels.getD channelIndex false
  let newUIState := !currentUIState
  let channels' := s.channels.set channelIndex newUIState
  let effective' :=
    if !newUIState then updateEffectiveStateOnMute s.effective channelIndex true
    else s.effective
  ⟨channels', effective'⟩

/-- Embeds `handleToggleAll()`: sets every channel to `!allEnabled`; when the new
target is all-muted it also zeroes the effective state. -/
def handleToggleAll (s : MixerState) : MixerState :=
  let newState := !areAllChannelsEnabled s.channels
  let channels' := List.replicate 8 newState
  let effective' := if !newState then List.replicate 8 false else s.effective
  ⟨channels', effective'⟩

/-- Embeds `handleSolo(channelIndex)`: desired state becomes `false` everywhere
except the soloed index; effective state goes through
`updateEffectiveStateOnSolo`. -/
def handleSolo (s : MixerState) (channelIndex : Nat) : MixerState :=
  ⟨(List.replicate 8 false).set channelIndex true,
   updateEffectiveStateOnSolo s.effective channelIndex⟩

/-- The reload-completion step of `applyWithReload`:
`setEffectiveAudioState([...channels])`. -/
def completeReload (s : MixerState) : MixerState :=
  ⟨s.channels, s.channels⟩

/-- The implicit mixer invariant: the effective state never exceeds the
desired state — effective `true` at an index implies desired `true` there. -/
def MixerInv (s : MixerState) : Prop :=
  ∀ i : Nat, s.effective[i]? = some true → s.channels[i]? = some true

/-- Both state sequences have the fixed channel cardinality 8. -/
def MixerWF (s : MixerState) : Prop :=
  s.channels.length = 8 ∧ s.effective.length = 8

/-! ## JS string primitives

The source manipulates strings with `split` (non-empty literal
separators), `trim`, and `replace` with a plain-string pattern (which in
JS replaces only the first occurrence). They are embedded as executable
functions on `List Char`; `String.prototype.split` with separators
`"\n"`, `"|"` and `"; "` is specialized to the three functions below,
each matching the leftmost occurrence first, exactly as JS does. -/

/-- Here `stripPat pat cs` removes `pat` from the front of `cs`; `none` when
`cs` does not start with `pat`. -/
def stripPat : (pat cs : List Char) → Option (List Char)
  | [], cs => some cs
  | _ :: _, [] => none
  | p :: ps, c :: cs => if c = p then stripPat ps cs else none

/-- Embeds `s.split(sep)` for a single-character separator. -/
def splitOnChar (sep : Char) : List Char → List (List Char)
  | [] => [[]]
  | c :: cs =>
    if c = sep then [] :: splitOnChar sep cs
    else
      match splitOnChar sep cs with
      | [] => [[c]]
      | piece :: rest => (c :: piece) :: rest

/-- Embeds `s.split('; ')`: the two-character separator used between the
key-part and the values-part of an option line. -/
def splitOnSemiSp : List Char → List (List Char)
  | [] => [[]]
  | [c] => [[c]]
  | ';' :: ' ' :: cs => [] :: splitOnSemiSp cs
  | c :: c2 :: cs =>
    match splitOnSemiSp (c2 :: cs) with
    | [] => [[c]]
    | piece :: rest => (c :: piece) :: rest

/-- Embeds `s.trim()` (restricted to the ASCII whitespace the source data can
contain). -/
def jsTrim (cs : List Char) : List Char :=
  ((cs.dropWhile Char.isWhitespace).reverse.dropWhile Char.isWhitespace).reverse

/-- Embeds `s.replace(pat, '')` for a plain-string `pat`: removes the leftmost
occurrence of `pat`, if any. -/
def replaceFirst (pat : List Char) : List Char → List Char
  | [] => []
  | c :: cs =>
    match stripPat pat (c :: cs) with
    | some rest => rest
    | none => c :: replaceFirst pat cs

/-- The `"(Default) "` marker the parser strips from declared values. -/
def defaultMarker : List Char := "(Default) ".toList

/-! ## utils.ts: parseCoreOptions, getSoundChannelOptions -/

/-- One parsed engine option (`CoreOption` in `types.ts`). -/
structure CoreOption where
  key : String
  currentValue : String
  values : List String
  displayName : String
deriving DecidableEq

/-- Embeds `key.replace(/^snes9x[-_]/, '')`: drop a leading `snes9x-` or
`snes9x_`. -/
def stripSnesHead (cs : List Char) : List Char :=
  match stripPat "snes9x-".toList cs with
  | some rest => rest
  | none =>
    match stripPat "snes9x_".toList cs with
    | some rest => rest
    | none => cs

/-- JS `\w`: ASCII letter, digit or underscore. -/
def isWordChar (c : Char) : Bool :=
  c.isAlpha || c.isDigit || c = '_'

/-- Embeds `.replace(/\b\w/g, (c) => c.toUpperCase())`: uppercase every word
character that starts a word; `prevWord` records whether the previous
character was a word character. -/
def titleCaseGo : Bool → List Char → List Char
  | _, [] => []
  | prevWord, c :: cs =>
    (if !prevWord && isWordChar c then c.toUpper else c) :: titleCaseGo (isWordChar c) cs

/-- The `displayName` derivation of `parseCoreOptions`. -/
def mkDisplayName (key : List Char) : List Char :=
  titleCaseGo false
    ((stripSnesHead key).map (fun c => if c = '-' || c = '_' then ' ' else c))

/-- The body of the `parseCoreOptions` loop for one line: `none` mirrors
`continue` for a malformed line. -/
def parseLine (line : List Char) : Option CoreOption :=
  let parts := splitOnSemiSp line
  let keyPart := parts.getD 0 []
  match parts[1]? with
  | none => none
  | some valuesPart =>
    if keyPart = [] ∨ valuesPart = [] then none
    else
      let kcv := splitOnChar '|' keyPart
      let key := kcv.getD 0 []
      let values := splitOnChar '|' valuesPart
      let fallback := jsTrim (replaceFirst defaultMarker (values.getD 0 []))
      let cv :=
        match kcv[1]? with
        | some cvRaw => let t := jsTrim cvRaw; if t = [] then fallback else t
        | none => fallback
      some
        { key := String.mk (jsTrim key)
          currentValue := String.mk cv
          values := values.map (fun v => String.mk (jsTrim (replaceFirst defaultMarker v)))
          displayName := String.mk (mkDisplayName key) }

/-- Embeds `parseCoreOptions(optionsString)` from `utils.ts`: empty input yields
`[]`; otherwise split into lines, keep the lines that are non-blank after
trimming, and parse each, skipping malformed ones. -/
def parseCoreOptions (optionsString : String) : List CoreOption :=
  if optionsString = "" then []
  else
    ((splitOnChar '\n' optionsString.data).filter
      (fun l => !(jsTrim l).isEmpty)).filterMap parseLine

/-- The pattern of `/snes9x_sndchan_\d/`. -/
def sndchanPat : List Char := "snes9x_sndchan_".toList

/-- JS `\d`: an ASCII decimal digit. -/
def isAsciiDigit (c : Char) : Bool :=
  '0' ≤ c && c ≤ '9'

/-- Embeds the test that `key.match(/snes9x_sndchan_\d/)` is non-null: the key contains, at
some position, the literal `snes9x_sndchan_` immediately followed by a
decimal digit. The regex is unanchored and accepts any digit. -/
def hasSndchanMatch : List Char → Bool
  | [] => false
  | c :: cs =>
    (match stripPat sndchanPat (c :: cs) with
     | some (d :: _) => isAsciiDigit d
     | _ => false) || hasSndchanMatch cs

/-- Embeds `getSoundChannelOptions(options)` from `utils.ts`. -/
def getSoundChannelOptions (options : List CoreOption) : List CoreOption :=
  options.filter (fun opt => hasSndchanMatch opt.key.data)

/-! ## types.ts: SNES_CHANNELS, and initializeChannelStates -/

/-- One entry of the fixed channel table (`SnesChannel` in `types.ts`). -/
structure SnesChannel where
  id : Nat
  name : String
  color : String
  varKey : String
deriving DecidableEq

/-- The `SNES_CHANNELS` constant from `types.ts`. -/
def SNES_CHANNELS : List SnesChannel :=
  [⟨1, "CH 1", "#ef4444", "snes9x_sndchan_1"⟩,
   ⟨2, "CH 2", "#f97316", "snes9x_sndchan_2"⟩,
   ⟨3, "CH 3", "#eab308", "snes9x_sndchan_3"⟩,
   ⟨4, "CH 4", "#22c55e", "snes9x_sndchan_4"⟩,
   ⟨5, "CH 5", "#06b6d4", "snes9x_sndchan_5"⟩,
   ⟨6, "CH 6", "#3b82f6", "snes9x_sndchan_6"⟩,
   ⟨7, "CH 7", "#8b5cf6", "snes9x_sndchan_7"⟩,
   ⟨8, "CH 8", "#ec4899", "snes9x_sndchan_8"⟩]

/-- Embeds `initializeChannelStates(options)` from `channelState.ts`: for each
channel, the first option with the channel's `varKey` decides
(`currentValue === 'enabled'`); `true` when absent. -/
def initializeChannelStates (options : List CoreOption) : List Bool :=
  SNES_CHANNELS.map (fun ch =>
    match options.find? (fun o => o.key == ch.varKey) with
    | some opt => opt.currentValue == "enabled"
    | none => true)

/-! ## channelStates.ts (persistence adapter)

`localStorage` is modelled as an association list looked up front-first,
and the external `JSON.parse` as a function parameter of type
`String → Option Json` (`none` models a thrown parse error). The adapter
itself is total and `Option`-valued: it cannot throw. -/

/-- A JSON value, the result of a successful `JSON.parse`. -/
inductive Json where
  | jnull
  | jbool (b : Bool)
  | jnum (n : Int)
  | jstr (s : String)
  | jarr (elements : List Json)
  | jobj (fields : List (String × Json))

/-- The key a ROM's channel states are stored under:
`STORAGE_PREFIX + romName` with `STORAGE_PREFIX = 'snes-channels-'`. -/
def storageKeyFor (romName : String) : String :=
  "snes-channels-" ++ romName

/-- Embeds `localStorage.setItem`: the store is looked up front-first, so
prepending is last-write-wins. -/
def setItem (store : List (String × String)) (k v : String) :
    List (String × String) :=
  (k, v) :: store

/-- Embeds `getSavedChannelStates(romName)` from `channelStates.ts`: empty
`romName` or absent/empty entry yields `none`; a parse failure is caught
and yields `none`; the source checks only `Array.isArray(parsed) &&
parsed.length === 8` before returning the parsed value. -/
def getSavedChannelStates (jsonParse : String → Option Json)
    (store : List (String × String)) (romName : String) : Option (List Json) :=
  if romName = "" then none
  else
    match store.lookup (storageKeyFor romName) with
    | none => none
    | some saved =>
      if saved = "" then none
      else
        match jsonParse saved with
        | some (Json.jarr elements) =>
          if elements.length = 8 then some elements else none
        | _ => none

/-- Embeds `JSON.stringify` of a boolean array. -/
def stringifyBools (states : List Bool) : String :=
  "[" ++ String.intercalate "," (states.map (fun b => if b then "true" else "false")) ++ "]"

/-- Embeds `saveChannelStates(romName, states)` from `channelStates.ts`: returns
the success flag together with the updated store. -/
def saveChannelStates (store : List (String × String)) (romName : String)
    (states : List Bool) : Bool × List (String × String) :=
  if romName = "" ∨ states.length ≠ 8 then (false, store)
  else (true, setItem store (storageKeyFor romName) (stringifyBools states))

/-- A concrete instance of the external `JSON.parse`, agreeing with it on
the two strings the witnesses and counterexamples below use. -/
def jsonParseFixture : String → Option Json := fun s =>
  if s = "[1,1,1,1,1,1,1,1]" then
    some (Json.jarr (List.replicate 8 (Json.jnum 1)))
  else if s = "[true,false,true,false,true,false,true,false]" then
    some (Json.jarr ([true, false, true, false, true, false, true, false].map Json.jbool))
  else none

end Hurmuzi

namespace Hurmuzi

/-! ## Theorems for claims C1–C3 -/

/-- Helper: the characterization of `needsReload` shared by several
claims. -/
theorem needsReload_true_iff (uiStates effectiveStates : List Bool)
    (hu : uiStates.length = 8) (_he : effectiveStates.length = 8) :
    needsReload uiStates effectiveStates = true ↔
      ∃ i < 8, uiStates[i]? = some true ∧ effectiveStates[i]? = some false := by
  unfold needsReload
  rw [List.any_eq_true]
  constructor
  · rintro ⟨i, hi, hcond⟩
    rw [List.mem_range, hu] at hi
    rw [Bool.and_eq_true, decide_eq_true_iff] at hcond
    have hilt : i < uiStates.length := by omega
    refine ⟨i, hi, ?_, hcond.2⟩
    have h1 := hcond.1
    rw [List.getD_eq_getElem?_getD, List.getElem?_eq_getElem hilt] at h1
    rw [List.getElem?_eq_getElem hilt]
    simpa using h1
  · rintro ⟨i, hi, hui, hei⟩
    have hilt : i < uiStates.length := by omega
    refine ⟨i, by rw [List.mem_range]; omega, ?_⟩
    rw [Bool.and_eq_true, decide_eq_true_iff]
    refine ⟨?_, hei⟩
    rw [List.getD_eq_getElem?_getD, hui]
    rfl

/-- C1: for 8-element `uiStates` (desired) and `effectiveStates`,
`needsReload` is true iff some index has desired `true` and effective
`false`; it is a pure function recomputed from the two sequences alone. -/
theorem needsReload_iff_exists (uiStates effectiveStates : List Bool)
    (hu : uiStates.length = 8) (he : effectiveStates.length = 8) :
    needsReload uiStates effectiveStates = true ↔
      ∃ i < 8, uiStates[i]? = some true ∧ effectiveStates[i]? = some false :=
  needsReload_true_iff uiStates effectiveStates hu he

/-- C1 witness: the characterization at a concrete pair of sequences. -/
theorem needsReload_iff_exists_witness :
    needsReload [true, true, false, false, true, true, true, true]
        [true, false, false, false, true, true, true, true] = true ↔
      ∃ i < 8, ([true, true, false, false, true, true, true, true] : List Bool)[i]? = some true ∧
        ([true, false, false, false, true, true, true, true] : List Bool)[i]? = some false :=
  needsReload_iff_exists _ _ (by decide) (by decide)

/-- C2: muting channel `i` sets effective index `i` to `false` and leaves
every other index unchanged; an unmute call (`isMuting = false`) returns
the effective sequence unchanged; and after a `handleToggle` that mutes
channel `i` (its UI state was `true`), channel `i` itself does not trigger
the reload condition (desired `true` with effective `false`). -/
theorem mute_transition_spec (eff : List Bool) (i : Nat) (hi : i < eff.length) :
    (updateEffectiveStateOnMute eff i true)[i]? = some false ∧
    (∀ j, j ≠ i → (updateEffectiveStateOnMute eff i true)[j]? = eff[j]?) ∧
    updateEffectiveStateOnMute eff i false = eff ∧
    (∀ ch : List Bool, ch.getD i false = true →
      ¬((handleToggle ⟨ch, eff⟩ i).channels[i]? = some true ∧
        (handleToggle ⟨ch, eff⟩ i).effective[i]? = some false)) := by
  refine ⟨?_, ?_, rfl, ?_⟩
  · simp only [updateEffectiveStateOnMute, Bool.not_true, Bool.false_eq_true, if_false]
    exact List.getElem?_set_eq_of_lt _ hi
  · intro j hj
    simp only [updateEffectiveStateOnMute, Bool.not_true, Bool.false_eq_true, if_false]
    exact List.getElem?_set_ne (Ne.symm hj)
  · intro ch hch
    rintro ⟨h1, _h2⟩
    simp only [handleToggle, hch, Bool.not_true, Bool.not_false, if_true] at h1
    rw [List.getElem?_set_self'] at h1
    cases hq : ch[i]? with
    | none => rw [hq] at h1; simp at h1
    | some b => rw [hq] at h1; simp at h1

/-- C2 witness: the theorem applied at a concrete effective state and
channel index. -/
theorem mute_transition_spec_witness :
    (updateEffectiveStateOnMute [true, true, true, true, true, true, true, true] 2 true)[2]? =
      some false :=
  (mute_transition_spec [true, true, true, true, true, true, true, true] 2 (by decide)).1

/-- C3: `updateEffectiveStateOnSolo` returns a sequence that is `false` at
every index other than the soloed one, and preserves the soloed index's
prior effective value. -/
theorem solo_preserves_only_soloed (eff : List Bool) (i : Nat)
    (he : eff.length = 8) (hi : i < 8) :
    (∀ j, j < 8 → j ≠ i → (updateEffectiveStateOnSolo eff i)[j]? = some false) ∧
    (updateEffectiveStateOnSolo eff i)[i]? = eff[i]? := by
  have hie : i < eff.length := by omega
  constructor
  · intro j hj hne
    unfold updateEffectiveStateOnSolo
    rw [List.getElem?_set_ne (Ne.symm hne), List.getElem?_replicate]
    simp [hj]
  · unfold updateEffectiveStateOnSolo
    have hlt : i < (List.replicate 8 false).length := by simp [hi]
    rw [List.getElem?_set_eq_of_lt _ hlt, List.getElem?_eq_getElem hie,
      List.getD_eq_getElem?_getD, List.getElem?_eq_getElem hie]
    rfl

/-- C3 witness: soloing channel 2 of a state where it was inaudible keeps
it inaudible and silences all the others. -/
theorem solo_preserves_only_soloed_witness :
    (updateEffectiveStateOnSolo [true, true, false, true, true, true, true, true] 2)[2]? =
      ([true, true, false, true, true, true, true, true] : List Bool)[2]? :=
  (solo_preserves_only_soloed [true, true, false, true, true, true, true, true] 2
    (by decide) (by decide)).2

/-- C10: any state with desired = effective satisfies the invariant; every
operation (`handleToggle`, `handleToggleAll`, `handleSolo`,
`completeReload`) preserves well-formedness and the invariant; under the
invariant the only divergence is a pending unmute (desired `true`,
effective `false`); and `needsReload` is false exactly when the sequences
agree on every index where desired is `true`. -/
theorem mixer_invariant_preserved :
    (∀ ch : List Bool, MixerInv ⟨ch, ch⟩) ∧
    (∀ s i, MixerWF s → MixerWF (handleToggle s i) ∧ MixerWF (handleToggleAll s) ∧
      MixerWF (handleSolo s i) ∧ MixerWF (completeReload s)) ∧
    (∀ s i, MixerInv s → MixerInv (handleToggle s i)) ∧
    (∀ s, MixerWF s → MixerInv s → MixerInv (handleToggleAll s)) ∧
    (∀ s i, MixerInv s → MixerInv (handleSolo s i)) ∧
    (∀ s, MixerInv (completeReload s)) ∧
    (∀ s, MixerWF s → MixerInv s → ∀ i : Nat, s.channels[i]? ≠ s.effective[i]? →
      s.channels[i]? = some true ∧ s.effective[i]? = some false) ∧
    (∀ s, MixerWF s → (needsReload s.channels s.effective = false ↔
      ∀ i : Nat, s.channels[i]? = some true → s.effective[i]? = some true)) := by
  refine ⟨fun ch i h => h, ?_, ?_, ?_, ?_, fun s i h => h, ?_, ?_⟩
  · intro s i hwf
    refine ⟨⟨?_, ?_⟩, ⟨?_, ?_⟩, ⟨?_, ?_⟩, ⟨hwf.1, hwf.1⟩⟩
    · simp [handleToggle, hwf.1]
    · simp only [handleToggle, updateEffectiveStateOnMute, Bool.not_true,
        Bool.false_eq_true, if_false]
      split <;> simp [hwf.2]
    · simp [handleToggleAll]
    · by_cases hc : areAllChannelsEnabled s.channels = true <;>
        simp [handleToggleAll, hc, hwf.2]
    · simp [handleSolo]
    · simp [handleSolo, updateEffectiveStateOnSolo]
  · intro s i hinv
    by_cases hc : s.channels.getD i false = true
    · intro j hj
      simp only [handleToggle, hc, Bool.not_true, Bool.not_false, if_true,
        updateEffectiveStateOnMute, Bool.false_eq_true, if_false] at hj ⊢
      by_cases hji : j = i
      · subst hji
        rw [List.getElem?_set_self'] at hj
        cases hq : s.effective[j]? with
        | none => rw [hq] at hj; cases hj
        | some b => rw [hq] at hj; simp at hj
      · rw [List.getElem?_set_ne (Ne.symm hji)] at hj
        rw [List.getElem?_set_ne (Ne.symm hji)]
        exact hinv j hj
    · intro j hj
      rw [Bool.not_eq_true] at hc
      simp only [handleToggle, hc, Bool.not_true, Bool.not_false, if_false] at hj ⊢
      by_cases hji : j = i
      · subst hji
        rw [List.getElem?_set_self', hinv j hj]
        rfl
      · rw [List.getElem?_set_ne (Ne.symm hji)]
        exact hinv j hj
  · intro s hwf hinv j hj
    by_cases hc : areAllChannelsEnabled s.channels = true
    · simp only [handleToggleAll, hc, Bool.not_true, Bool.not_false, if_true] at hj
      rw [List.getElem?_replicate] at hj
      split at hj <;> cases hj
    · rw [Bool.not_eq_true] at hc
      simp only [handleToggleAll, hc, Bool.not_false, Bool.not_true, if_false] at hj ⊢
      have hlt : j < s.effective.length := (List.getElem?_eq_some.mp hj).1
      have h8 := hwf.2
      rw [List.getElem?_replicate, if_pos (by omega)]
  · intro s i hinv j hj
    simp only [handleSolo, updateEffectiveStateOnSolo] at hj ⊢
    by_cases hji : j = i
    · subst hji
      rw [List.getElem?_set_self'] at hj ⊢
      rw [List.getElem?_replicate] at hj ⊢
      by_cases hj8 : j < 8
      · simp [hj8]
      · simp [hj8] at hj
    · rw [List.getElem?_set_ne (Ne.symm hji), List.getElem?_replicate] at hj
      split at hj <;> cases hj
  · intro s hwf hinv i hne
    obtain ⟨hl1, hl2⟩ := hwf
    by_cases hi : i < 8
    · have hic : i < s.channels.length := by omega
      have hie : i < s.effective.length := by omega
      have hc := List.getElem?_eq_getElem hic
      have he := List.getElem?_eq_getElem hie
      cases hb : s.effective[i] with
      | true =>
        exfalso
        apply hne
        have h1 : s.effective[i]? = some true := by rw [he, hb]
        rw [hinv i h1, h1]
      | false =>
        refine ⟨?_, by rw [he, hb]⟩
        cases ha : s.channels[i] with
        | true => rw [hc, ha]
        | false =>
          exfalso
          apply hne
          rw [hc, ha, he, hb]
    · exfalso
      apply hne
      rw [List.getElem?_eq_none (by omega), List.getElem?_eq_none (by omega)]
  · intro s hwf
    obtain ⟨hl1, hl2⟩ := hwf
    rw [show (needsReload s.channels s.effective = false) ↔
        ¬(needsReload s.channels s.effective = true) by simp,
      needsReload_true_iff s.channels s.effective hl1 hl2]
    constructor
    · intro hne i hc
      have hic : i < s.channels.length := (List.getElem?_eq_some.mp hc).1
      have hie : i < s.effective.length := by omega
      rw [List.getElem?_eq_getElem hie]
      cases hb : s.effective[i] with
      | true => rfl
      | false =>
        exact absurd ⟨i, by omega, hc,
          by rw [List.getElem?_eq_getElem hie, hb]⟩ hne
    · rintro hall ⟨i, hi8, hc, hef⟩
      rw [hall i hc] at hef
      cases hef

/-- C10 witness: the preservation theorem applied at a concrete state,
with the invariant hypothesis discharged by an explicit term. -/
theorem mixer_invariant_preserved_witness :
    MixerInv (handleToggle ⟨List.replicate 8 true, List.replicate 8 true⟩ 2) :=
  mixer_invariant_preserved.2.2.1 ⟨List.replicate 8 true, List.replicate 8 true⟩ 2
    (fun _ h => h)

/-! ## Theorems for claims C4 and C6 (persistence) -/

/-- C4 counterexample: a stored string that parses to a length-8 array of
numbers (not booleans) is returned, not treated as absent. The claim says
any length-8 array containing a non-boolean element yields `null`. -/
theorem load_nonboolean_counterexample :
    getSavedChannelStates jsonParseFixture
        [("snes-channels-game.smc", "[1,1,1,1,1,1,1,1]")] "game.smc" =
      some (List.replicate 8 (Json.jnum 1)) ∧
    Json.jnum 1 ≠ Json.jbool true ∧ Json.jnum 1 ≠ Json.jbool false := by
  refine ⟨?_, fun h => Json.noConfusion h, fun h => Json.noConfusion h⟩
  rfl

/-- C4 amended: `getSavedChannelStates` returns the parsed value iff the
romName is non-empty, a non-empty string is stored under its key, and the
string parses to a JSON array of exactly 8 elements — of any type, the
element type is not checked. Everything else (invalid JSON, a non-array,
a wrong length) yields `none`, and the function is total, so it never
throws. -/
theorem load_shape_check_amended (jsonParse : String → Option Json)
    (store : List (String × String)) (romName : String) (xs : List Json) :
    getSavedChannelStates jsonParse store romName = some xs ↔
      romName ≠ "" ∧ ∃ saved, store.lookup (storageKeyFor romName) = some saved ∧
        saved ≠ "" ∧ jsonParse saved = some (Json.jarr xs) ∧ xs.length = 8 := by
  constructor
  · intro h
    unfold getSavedChannelStates at h
    split at h
    · exact absurd h (by simp)
    · next hr =>
      refine ⟨hr, ?_⟩
      split at h
      · exact absurd h (by simp)
      · next saved hl =>
        refine ⟨saved, hl, ?_⟩
        split at h
        · exact absurd h (by simp)
        · next hs =>
          refine ⟨hs, ?_⟩
          split at h
          · next el hp =>
            split at h
            · next hlen =>
              cases h
              exact ⟨hp, hlen⟩
            · exact absurd h (by simp)
          · exact absurd h (by simp)
  · rintro ⟨hr, saved, hl, hs, hp, hlen⟩
    simp [getSavedChannelStates, hr, hl, hs, hp, hlen]

/-- C4 amended witness: the characterization at a concrete store holding
a valid 8-boolean entry. -/
theorem load_shape_check_amended_witness :
    getSavedChannelStates jsonParseFixture
        [("snes-channels-game.smc", "[true,false,true,false,true,false,true,false]")]
        "game.smc" =
      some ([true, false, true, false, true, false, true, false].map Json.jbool) :=
  (load_shape_check_amended jsonParseFixture
      [("snes-channels-game.smc", "[true,false,true,false,true,false,true,false]")]
      "game.smc"
      ([true, false, true, false, true, false, true, false].map Json.jbool)).mpr
    ⟨by decide, "[true,false,true,false,true,false,true,false]", by rfl, by decide,
      by rfl, by rfl⟩

/-- C6: for any 8-boolean array and non-empty romId, `saveChannelStates`
succeeds and an immediately following `getSavedChannelStates` for the
same romId returns the saved array (encoded as JSON booleans); the save
fails when the romId is empty or the array length differs from 8. The
external `JSON.parse` is assumed to invert `JSON.stringify` on the
serialized array. -/
theorem save_load_round_trip (jsonParse : String → Option Json)
    (store : List (String × String)) (romId : String) (s : List Bool)
    (hrom : romId ≠ "") (hlen : s.length = 8)
    (hparse : jsonParse (stringifyBools s) = some (Json.jarr (s.map Json.jbool))) :
    (saveChannelStates store romId s).1 = true ∧
    getSavedChannelStates jsonParse (saveChannelStates store romId s).2 romId =
      some (s.map Json.jbool) ∧
    (∀ (store' : List (String × String)) (romId' : String) (s' : List Bool),
      romId' = "" ∨ s'.length ≠ 8 → (saveChannelStates store' romId' s').1 = false) := by
  have hcond : ¬(romId = "" ∨ s.length ≠ 8) := by
    rintro (h | h)
    · exact hrom h
    · exact h hlen
  refine ⟨?_, ?_, ?_⟩
  · unfold saveChannelStates
    rw [if_neg hcond]
  · have hne : stringifyBools s ≠ "" := by
      intro h
      have h2 := congrArg String.length h
      simp only [stringifyBools, String.length_append] at h2
      have h3 : ("[" : String).length = 1 := rfl
      have h4 : ("]" : String).length = 1 := rfl
      have h5 : ("" : String).length = 0 := rfl
      omega
    simp [saveChannelStates, hcond, getSavedChannelStates, setItem, hrom, hne,
      hparse, List.lookup, hlen]
  · rintro store' romId' s' (h | h) <;> unfold saveChannelStates
    · rw [if_pos (Or.inl h)]
    · rw [if_pos (Or.inr h)]

/-- C6 witness: the round-trip law at a concrete store, romId and state,
with `JSON.parse` instantiated by a fixture agreeing with it on the
serialized string. -/
theorem save_load_round_trip_witness :
    getSavedChannelStates jsonParseFixture
        (saveChannelStates [] "game.smc"
          [true, false, true, false, true, false, true, false]).2 "game.smc" =
      some ([true, false, true, false, true, false, true, false].map Json.jbool) :=
  (save_load_round_trip jsonParseFixture [] "game.smc"
      [true, false, true, false, true, false, true, false]
      (by decide) (by decide) (by rfl)).2.1

/-! ## Theorems for claim C5 (channel-option classifier) -/

/-- Helper: `stripPat pat cs` succeeds with remainder `r` exactly when
`cs` is `pat ++ r`. -/
theorem stripPat_eq_some_iff (pat cs r : List Char) :
    stripPat pat cs = some r ↔ cs = pat ++ r := by
  induction pat generalizing cs with
  | nil => simp [stripPat]
  | cons p ps ih =>
    cases cs with
    | nil => simp [stripPat]
    | cons c cs' =>
      by_cases hc : c = p
      · subst hc
        simp [stripPat, ih]
      · simp [stripPat, hc, Ne.symm hc]

/-- Helper: the unanchored regex `snes9x_sndchan_\d` matches iff the key
splits as `l ++ "snes9x_sndchan_" ++ digit :: r`. -/
theorem hasSndchanMatch_iff (cs : List Char) :
    hasSndchanMatch cs = true ↔
      ∃ l d r, cs = l ++ sndchanPat ++ d :: r ∧ isAsciiDigit d = true := by
  induction cs with
  | nil =>
    simp only [hasSndchanMatch, Bool.false_eq_true, false_iff]
    rintro ⟨l, d, r, h, -⟩
    have := congrArg List.length h
    simp only [List.length_nil, List.length_append, List.length_cons] at this
    omega
  | cons c cs' ih =>
    rw [show hasSndchanMatch (c :: cs') =
        ((match stripPat sndchanPat (c :: cs') with
          | some (d :: _) => isAsciiDigit d
          | _ => false) || hasSndchanMatch cs') from rfl]
    rw [Bool.or_eq_true, ih]
    constructor
    · rintro (hm | ⟨l, d, r, hcs, hd⟩)
      · cases hs : stripPat sndchanPat (c :: cs') with
        | none => rw [hs] at hm; simp at hm
        | some rest =>
          cases rest with
          | nil => rw [hs] at hm; simp at hm
          | cons d rr =>
            rw [hs] at hm
            have h2 := (stripPat_eq_some_iff _ _ _).mp hs
            exact ⟨[], d, rr, by simpa using h2, by simpa using hm⟩
      · exact ⟨c :: l, d, r, by simp [hcs], hd⟩
    · rintro ⟨l, d, r, hcs, hd⟩
      cases l with
      | nil =>
        left
        have h2 : stripPat sndchanPat (c :: cs') = some (d :: r) :=
          (stripPat_eq_some_iff _ _ _).mpr (by simpa using hcs)
        rw [h2]
        simpa using hd
      | cons x l' =>
        right
        have h3 := hcs
        rw [List.cons_append] at h3
        injection h3 with h3a h3b
        exact ⟨l', d, r, h3b, hd⟩

/-- C5 counterexample: the key `snes9x_sndchan_9` — a digit outside 1..8
— is classified as a channel-mute option by `getSoundChannelOptions`,
although it is none of the 8 fixed channel keys; the claim says it must
not be classified. -/
theorem channel_classifier_counterexample :
    getSoundChannelOptions
        [{ key := "snes9x_sndchan_9", currentValue := "enabled", values := [],
           displayName := "Sndchan 9" }] =
      [{ key := "snes9x_sndchan_9", currentValue := "enabled", values := [],
         displayName := "Sndchan 9" }] ∧
    ¬("snes9x_sndchan_9" ∈ SNES_CHANNELS.map SnesChannel.varKey) := by
  constructor
  · decide
  · decide

/-- C5 amended: a key is classified as a channel-mute option iff it
contains `snes9x_sndchan_` immediately followed by any ASCII digit,
anywhere in the key — in particular all 8 canonical keys, but also keys
with digit 0 or 9 and keys containing the pattern as a proper substring;
the filtered result is an order-preserving subsequence of the input. -/
theorem channel_classifier_amended (opts : List CoreOption) :
    (getSoundChannelOptions opts).Sublist opts ∧
    (∀ o, o ∈ getSoundChannelOptions opts ↔
      o ∈ opts ∧ hasSndchanMatch o.key.data = true) ∧
    (∀ cs, hasSndchanMatch cs = true ↔
      ∃ l d r, cs = l ++ sndchanPat ++ d :: r ∧ isAsciiDigit d = true) ∧
    (∀ ch ∈ SNES_CHANNELS, hasSndchanMatch ch.varKey.data = true) := by
  refine ⟨List.filter_sublist _, ?_, hasSndchanMatch_iff, by decide⟩
  intro o
  simp [getSoundChannelOptions, List.mem_filter]

/-- C5 amended witness: a canonical channel key is classified, with the
membership hypothesis discharged concretely. -/
theorem channel_classifier_amended_witness :
    hasSndchanMatch ("snes9x_sndchan_1" : String).data = true :=
  (channel_classifier_amended []).2.2.2 ⟨1, "CH 1", "#ef4444", "snes9x_sndchan_1"⟩
    (by decide)

/-! ## Theorems for claims C7 and C8 (option-table parser) -/

/-- Helper: every character of every piece produced by `splitOnChar`
comes from the original character list. -/
theorem mem_of_mem_splitOnChar (sep : Char) (cs : List Char) (c : Char) :
    ∀ piece ∈ splitOnChar sep cs, c ∈ piece → c ∈ cs := by
  induction cs with
  | nil =>
    intro piece hp hc
    simp only [splitOnChar, List.mem_singleton] at hp
    subst hp
    cases hc
  | cons x xs ih =>
    intro piece hp hc
    simp only [splitOnChar] at hp
    by_cases hx : x = sep
    · rw [if_pos hx] at hp
      rcases List.mem_cons.mp hp with h | h
      · subst h; cases hc
      · exact List.mem_cons_of_mem _ (ih piece h hc)
    · rw [if_neg hx] at hp
      cases hs : splitOnChar sep xs with
      | nil =>
        rw [hs] at hp
        simp only [List.mem_singleton] at hp
        subst hp
        have hcx : c = x := List.mem_singleton.mp hc
        subst hcx
        exact List.mem_cons_self _ _
      | cons p rest =>
        rw [hs] at hp
        rcases List.mem_cons.mp hp with h | h
        · subst h
          rcases List.mem_cons.mp hc with h1 | h1
          · subst h1; exact List.mem_cons_self _ _
          · have hpmem : p ∈ splitOnChar sep xs := by
              rw [hs]; exact List.mem_cons_self _ _
            exact List.mem_cons_of_mem _ (ih p hpmem h1)
        · have hmem : piece ∈ splitOnChar sep xs := by
            rw [hs]; exact List.mem_cons_of_mem _ h
          exact List.mem_cons_of_mem _ (ih piece hmem hc)

/-- Helper: trimming an all-whitespace list yields the empty list. -/
theorem jsTrim_eq_nil_of_forall_ws (cs : List Char)
    (h : ∀ c ∈ cs, Char.isWhitespace c) : jsTrim cs = [] := by
  unfold jsTrim
  rw [List.dropWhile_eq_nil_iff.mpr (fun c hc => h c hc)]
  rfl

/-- Helper: a line without the `'; '` separator parses to `none`
(mirrors the `continue` for a malformed line). -/
theorem parseLine_eq_none_of_no_sep (line : List Char)
    (h : (splitOnSemiSp line)[1]? = none) : parseLine line = none := by
  simp [parseLine, h]

/-- C7: the parser is total (it is a Lean function); the empty string and
any whitespace-only string parse to the empty list; a line missing the
`'; '` separator, or with an empty key-part or values-part, is skipped;
and a dump of one well-formed plus one malformed line yields exactly the
one option from the well-formed line. -/
theorem parser_tolerance :
    parseCoreOptions "" = [] ∧
    (∀ s : String, (∀ c ∈ s.data, Char.isWhitespace c) → parseCoreOptions s = []) ∧
    (∀ line : List Char, (splitOnSemiSp line)[1]? = none → parseLine line = none) ∧
    (∀ (line keyPart valuesPart : List Char) (rest : List (List Char)),
      splitOnSemiSp line = keyPart :: valuesPart :: rest →
      keyPart = [] ∨ valuesPart = [] → parseLine line = none) ∧
    parseCoreOptions "good|x; a|b\nbadline" =
      [{ key := "good", currentValue := "x", values := ["a", "b"],
         displayName := "Good" }] := by
  refine ⟨rfl, ?_, parseLine_eq_none_of_no_sep, ?_, by decide⟩
  · intro s hws
    by_cases hs : s = ""
    · subst hs; rfl
    · unfold parseCoreOptions
      rw [if_neg hs]
      have hfil : (splitOnChar '\n' s.data).filter (fun l => !(jsTrim l).isEmpty) = [] := by
        rw [List.filter_eq_nil_iff]
        intro l hl
        have hall : ∀ c ∈ l, Char.isWhitespace c := fun c hc =>
          hws c (mem_of_mem_splitOnChar '\n' s.data c l hl hc)
        rw [jsTrim_eq_nil_of_forall_ws l hall]
        simp
      rw [hfil]
      rfl
  · intro line keyPart valuesPart rest hsplit hbad
    rcases hbad with h1 | h1 <;> simp [parseLine, hsplit, h1]

/-- C7 witness: a whitespace-only string parses to the empty list, with
the all-whitespace hypothesis discharged concretely. -/
theorem parser_tolerance_witness :
    parseCoreOptions "  \n \n" = [] :=
  parser_tolerance.2.1 "  \n \n" (by decide)

/-- Helper: `replaceFirst` leaves a list with no occurrence of the
pattern unchanged. -/
theorem replaceFirst_eq_self (pat cs : List Char)
    (h : ∀ l r, cs ≠ l ++ pat ++ r) : replaceFirst pat cs = cs := by
  induction cs with
  | nil => rfl
  | cons c cs' ih =>
    rw [show replaceFirst pat (c :: cs') =
        (match stripPat pat (c :: cs') with
         | some rest => rest
         | none => c :: replaceFirst pat cs') from rfl]
    cases hs : stripPat pat (c :: cs') with
    | some rest =>
      exact absurd ((stripPat_eq_some_iff _ _ _).mp hs)
        (by simpa using h [] rest)
    | none =>
      have hin : ∀ l r, cs' ≠ l ++ pat ++ r := by
        intro l r hlr
        exact h (c :: l) r (by simp [hlr])
      rw [ih hin]

/-- Helper: `replaceFirst` strips the pattern when it occurs as a
prefix. -/
theorem replaceFirst_strips_head (pat r : List Char) :
    replaceFirst pat (pat ++ r) = r := by
  rcases pat with _ | ⟨p, ps⟩
  · rcases r with _ | ⟨c, cs⟩
    · rfl
    · simp [replaceFirst, stripPat]
  · rw [List.cons_append]
    rw [show replaceFirst (p :: ps) (p :: (ps ++ r)) =
        (match stripPat (p :: ps) (p :: (ps ++ r)) with
         | some rest => rest
         | none => p :: replaceFirst (p :: ps) (ps ++ r)) from rfl]
    rw [show stripPat (p :: ps) (p :: (ps ++ r)) = some r from
      (stripPat_eq_some_iff _ _ _).mpr rfl]

/-- C8 counterexample: the declared value `x(Default) y` does not begin
with the marker, yet is stored as `xy` (the `replace` removes the first
occurrence anywhere, not only a prefix); and the key-part value `' '` is
present, yet `currentValue` falls back to the first declared value `a`
because the key-part value trims to the empty string. -/
theorem parse_current_value_counterexample :
    (parseCoreOptions "k|v; x(Default) y").map CoreOption.values = [["xy"]] ∧
    ("xy" : String) ≠ "x(Default) y" ∧
    (parseCoreOptions "k| ; a|b").map CoreOption.currentValue = ["a"] ∧
    ("a" : String) ≠ " " ∧ ("a" : String) ≠ "" := by
  exact ⟨by decide, by decide, by decide, by decide, by decide⟩

/-- C8 amended: for a well-formed line, every stored declared value is
the declared value with the FIRST occurrence of `"(Default) "` (anywhere,
not only as a prefix) removed and then trimmed — a value with no
occurrence of the marker is kept apart from trimming, and a value
starting with the marker has it stripped; `currentValue` is the trimmed
key-part value when that is present AND non-empty after trimming, and
otherwise falls back to the first declared value processed the same
way. -/
theorem parse_current_value_amended (line keyPart valuesPart : List Char)
    (rest : List (List Char))
    (hsplit : splitOnSemiSp line = keyPart :: valuesPart :: rest)
    (hk : keyPart ≠ []) (hv : valuesPart ≠ []) :
    (parseLine line).map CoreOption.values =
      some ((splitOnChar '|' valuesPart).map
        (fun v => String.mk (jsTrim (replaceFirst defaultMarker v)))) ∧
    (parseLine line).map CoreOption.currentValue =
      some (String.mk
        (match (splitOnChar '|' keyPart)[1]? with
         | some cvRaw =>
           if jsTrim cvRaw = []
           then jsTrim (replaceFirst defaultMarker ((splitOnChar '|' valuesPart).getD 0 []))
           else jsTrim cvRaw
         | none =>
           jsTrim (replaceFirst defaultMarker ((splitOnChar '|' valuesPart).getD 0 [])))) ∧
    (∀ v, (∀ l r, v ≠ l ++ defaultMarker ++ r) → replaceFirst defaultMarker v = v) ∧
    (∀ r, replaceFirst defaultMarker (defaultMarker ++ r) = r) := by
  refine ⟨?_, ?_, fun v h => replaceFirst_eq_self defaultMarker v h,
    fun r => replaceFirst_strips_head defaultMarker r⟩
  · simp [parseLine, hsplit, hk, hv]
  · cases h1 : (splitOnChar '|' keyPart)[1]? with
    | none => simp [parseLine, hsplit, hk, hv, h1]
    | some cvRaw =>
      by_cases h2 : jsTrim cvRaw = []
      · simp [parseLine, hsplit, hk, hv, h1, h2]
      · simp [parseLine, hsplit, hk, hv, h1, h2]

/-- C8 amended witness: the stored-values law at a concrete line whose
first declared value carries the `"(Default) "` marker. -/
theorem parse_current_value_amended_witness :
    (parseLine ("k|v; (Default) a|b".toList)).map CoreOption.values =
      some ((splitOnChar '|' ("(Default) a|b".toList)).map
        (fun v => String.mk (jsTrim (replaceFirst defaultMarker v)))) :=
  (parse_current_value_amended ("k|v; (Default) a|b".toList) ("k|v".toList)
      ("(Default) a|b".toList) [] (by decide) (by decide) (by decide)).1

/-! ## Theorems for claim C9 (initializeChannelStates) -/

/-- C9 counterexample: on a duplicate-key option list — which
`parseCoreOptions` itself produces from a dump repeating a line's key —
an option with channel 1's mute key and `currentValue` `"enabled"` is
present, yet entry 0 is `false`: the code takes the FIRST option with
the key, so mere presence of an enabled-valued option does not make the
entry true, refuting the claimed iff. -/
theorem initialize_duplicate_key_counterexample :
    (initializeChannelStates (parseCoreOptions
        "snes9x_sndchan_1|disabled; enabled|disabled\nsnes9x_sndchan_1|enabled; enabled|disabled"))[0]? =
      some false ∧
    (∃ o ∈ parseCoreOptions
        "snes9x_sndchan_1|disabled; enabled|disabled\nsnes9x_sndchan_1|enabled; enabled|disabled",
      o.key = (SNES_CHANNELS.getD 0 ⟨0, "", "", ""⟩).varKey ∧
      o.currentValue = "enabled") := by
  exact ⟨by decide, by decide⟩

/-- C9 amended: `initializeChannelStates` always yields exactly 8
booleans; for EVERY list of parsed options (duplicates included), entry
`i` is `true` iff either no option carries channel `i`'s mute key
(fail-open to audible), or the FIRST option in list order carrying that
key — the one preceded by no other option with the key — has
`currentValue` `"enabled"`; Scenario A's two-option dump yields
`[true, false, true, true, true, true, true, true]`. -/
theorem initialize_first_match_amended (options : List CoreOption) :
    (initializeChannelStates options).length = 8 ∧
    (∀ i : Nat, i < 8 →
      ((initializeChannelStates options)[i]? = some true ↔
        (¬∃ o ∈ options, o.key = (SNES_CHANNELS.getD i ⟨0, "", "", ""⟩).varKey) ∨
        (∃ pre o post, options = pre ++ o :: post ∧
          o.key = (SNES_CHANNELS.getD i ⟨0, "", "", ""⟩).varKey ∧
          o.currentValue = "enabled" ∧
          (∀ o' ∈ pre, o'.key ≠ (SNES_CHANNELS.getD i ⟨0, "", "", ""⟩).varKey)))) ∧
    initializeChannelStates (parseCoreOptions
        "snes9x_sndchan_1|enabled; enabled|disabled\nsnes9x_sndchan_2|disabled; enabled|disabled") =
      [true, false, true, true, true, true, true, true] := by
  refine ⟨by simp [initializeChannelStates, SNES_CHANNELS], ?_, by decide⟩
  intro i hi
  have hilt : i < SNES_CHANNELS.length := by
    have h8 : SNES_CHANNELS.length = 8 := rfl
    omega
  have hch : SNES_CHANNELS.getD i ⟨0, "", "", ""⟩ = SNES_CHANNELS[i] := by
    rw [List.getD_eq_getElem?_getD, List.getElem?_eq_getElem hilt]
    rfl
  rw [hch, initializeChannelStates, List.getElem?_map,
    List.getElem?_eq_getElem hilt]
  simp only [Option.map_some']
  cases hf : options.find? (fun o => o.key == SNES_CHANNELS[i].varKey) with
  | none =>
    have hno : ¬∃ o ∈ options, o.key = SNES_CHANNELS[i].varKey := by
      rw [List.find?_eq_none] at hf
      rintro ⟨o, ho, hkey⟩
      have h2 := hf o ho
      simp [hkey] at h2
    simp [hno]
  | some o =>
    obtain ⟨hpo, as, bs, hdec, hpre⟩ := List.find?_eq_some.mp hf
    have hkey : o.key = SNES_CHANNELS[i].varKey := by simpa using hpo
    simp only [Option.some.injEq]
    by_cases hcv : o.currentValue = "enabled"
    · refine iff_of_true (by simp [hcv]) (Or.inr ⟨as, o, bs, hdec, hkey, hcv, ?_⟩)
      intro o' ho' hk'
      have h2 := hpre o' ho'
      simp [hk'] at h2
    · refine iff_of_false (by simp [hcv]) ?_
      rintro (hno | ⟨pre, o', post, hdec', hkey', hcv', hfree⟩)
      · refine hno ⟨o, ?_, hkey⟩
        rw [hdec]
        exact List.mem_append_right _ (List.mem_cons_self _ _)
      · have hf' : options.find? (fun x => x.key == SNES_CHANNELS[i].varKey) = some o' := by
          rw [List.find?_eq_some]
          refine ⟨by simp [hkey'], pre, post, hdec', ?_⟩
          intro a ha
          simp [hfree a ha]
        rw [hf] at hf'
        injection hf' with h3
        refine hcv ?_
        rw [h3]
        exact hcv'

/-- C9 amended witness: the first-match characterization applied to the
empty option list at index 0, the index bound discharged concretely. -/
theorem initialize_first_match_amended_witness :
    ((initializeChannelStates ([] : List CoreOption))[0]? = some true ↔
      (¬∃ o ∈ ([] : List CoreOption),
        o.key = (SNES_CHANNELS.getD 0 ⟨0, "", "", ""⟩).varKey) ∨
      (∃ pre o post, ([] : List CoreOption) = pre ++ o :: post ∧
        o.key = (SNES_CHANNELS.getD 0 ⟨0, "", "", ""⟩).varKey ∧
        o.currentValue = "enabled" ∧
        (∀ o' ∈ pre, o'.key ≠ (SNES_CHANNELS.getD 0 ⟨0, "", "", ""⟩).varKey))) :=
  (initialize_first_match_amended []).2.1 0 (by decide)

end Hurmuzi
